import Mathlib

/-!
Shallow embedding of the boston_viewer Dyntaxa pipeline
(`scripts/dyntaxa_sqlite.py` and `scripts/create_refresh_list.py`).

The SQLite store is modelled as an explicit state (`Db`): the `taxa`
table is a list of rows in insertion order (rows are appended on INSERT
and mapped on UPDATE), `changes` is the append-only change log, and the
`meta` key `next_local_index` is a counter field.  Remote JSON taxon
objects are modelled by `TaxonObj`, a record of the keys the scripts
read (`taxon_obj.get("category")` etc.); time is passed explicitly as a
`now` argument in place of `_now()`.
-/

/-- One element of a taxon object's `names` list, with the keys read by
the scripts (`category.value`, `name`, `isRecommended`). -/
structure NameObj where
  category : Option String
  name : Option String
  isRecommended : Option Bool
deriving Repr, DecidableEq

/-- A remote taxon JSON object, restricted to the keys the scripts read.
`category`, `type`, `status` stand for `(obj.get(k) or {}).get("value")`. -/
structure TaxonObj where
  taxonId : Nat
  parentId : Option Int
  category : Option String
  type : Option String
  status : Option String
  names : List NameObj
deriving Repr, DecidableEq

/-- A row of the `taxa` table (see `SCHEMA_SQL`); `raw_json` keeps the
inserted object itself in place of its serialized form. -/
structure TaxaRow where
  taxon_id : Nat
  local_index : Nat
  sci_name : Option String
  swe_name : Option String
  category : Option String
  type : Option String
  status : Option String
  parent_id : Option Int
  is_active : Nat
  sha256 : Option String
  updated_at : Nat
  raw_json : TaxonObj
deriving Repr, DecidableEq

/-- A row of the append-only `changes` table; `at_ts` is the column `at`
(a Lean keyword). -/
structure ChangeRec where
  run_id : Nat
  taxon_id : Nat
  change_type : String
  old_sha256 : Option String
  new_sha256 : Option String
  at_ts : Nat
deriving Repr, DecidableEq

/-- The reconciliation store: `taxa` rows in insertion order, the
`changes` log, and the `meta` counter `next_local_index`. -/
structure Db where
  taxa : List TaxaRow
  changes : List ChangeRec
  next_local_index : Nat
deriving Repr, DecidableEq

/-- The store right after `db_open` on a fresh file: no rows and
`next_local_index = 0`. -/
def db_open0 : Db := ⟨[], [], 0⟩

/-- `SELECT ... FROM taxa WHERE taxon_id=?` (at most one row: primary key). -/
def findRow (taxa : List TaxaRow) (tid : Nat) : Option TaxaRow :=
  taxa.find? (fun r => r.taxon_id == tid)

/-- One step of the loop in `_pick_names_from_taxon_obj`: skip falsy
names, take the first ScientificName / SwedishName seen. -/
def pick_names_step (acc : Option String × Option String) (n : NameObj) :
    Option String × Option String :=
  match n.name with
  | none => acc
  | some nm =>
    if nm = "" then acc
    else
      let sci := if n.category = some "ScientificName" ∧ acc.1 = none then some nm else acc.1
      let swe := if n.category = some "SwedishName" ∧ acc.2 = none then some nm else acc.2
      (sci, swe)

/-- `_pick_names_from_taxon_obj`. -/
def pick_names_from_taxon_obj (obj : TaxonObj) : Option String × Option String :=
  obj.names.foldl pick_names_step (none, none)

/-- `UPDATE taxa SET ... WHERE taxon_id=?` as a map over the rows. -/
def updateRows (taxa : List TaxaRow) (tid : Nat) (f : TaxaRow → TaxaRow) : List TaxaRow :=
  taxa.map (fun r => if r.taxon_id == tid then f r else r)

/-- The row fields written by the two UPDATE statements of `upsert_taxon`
(everything except `taxon_id`, `local_index`, `is_active`). -/
def refreshFields (obj : TaxonObj) (sha256 : Option String) (now : Nat)
    (r : TaxaRow) : TaxaRow :=
  let picked := pick_names_from_taxon_obj obj
  { r with
    sci_name := picked.1
    swe_name := picked.2
    category := obj.category
    type := obj.type
    status := obj.status
    parent_id := obj.parentId
    sha256 := sha256
    updated_at := now
    raw_json := obj }

/-- `upsert_taxon(con, run_id, taxon_obj, sha256, make_active=...)`.
Returns the change_type string and the store after the call. -/
def upsert_taxon (con : Db) (run_id : Nat) (taxon_obj : TaxonObj)
    (sha256 : Option String) (make_active : Bool) (now : Nat) : String × Db :=
  let taxon_id := taxon_obj.taxonId
  match findRow con.taxa taxon_id with
  | none =>
    let local_index := con.next_local_index
    let picked := pick_names_from_taxon_obj taxon_obj
    let row : TaxaRow :=
      { taxon_id := taxon_id
        local_index := local_index
        sci_name := picked.1
        swe_name := picked.2
        category := taxon_obj.category
        type := taxon_obj.type
        status := taxon_obj.status
        parent_id := taxon_obj.parentId
        is_active := if make_active then 1 else 0
        sha256 := sha256
        updated_at := now
        raw_json := taxon_obj }
    ("inserted",
      { taxa := con.taxa ++ [row]
        changes := con.changes ++ [⟨run_id, taxon_id, "inserted", none, sha256, now⟩]
        next_local_index := con.next_local_index + 1 })
  | some row =>
    let old_sha := row.sha256
    let old_active := row.is_active
    if make_active = true ∧ old_active = 1 ∧ sha256 ≠ none ∧ old_sha = sha256 then
      ("unchanged", con)
    else if make_active = true ∧ old_active = 0 then
      ("reactivated",
        { con with
          taxa := updateRows con.taxa taxon_id
            (fun r => { refreshFields taxon_obj sha256 now r with is_active := 1 })
          changes := con.changes ++ [⟨run_id, taxon_id, "reactivated", old_sha, sha256, now⟩] })
    else if sha256 = none ∨ old_sha ≠ sha256 then
      ("updated",
        { con with
          taxa := updateRows con.taxa taxon_id
            (fun r => { refreshFields taxon_obj sha256 now r with
                        is_active := if make_active then 1 else old_active })
          changes := con.changes ++ [⟨run_id, taxon_id, "updated", old_sha, sha256, now⟩] })
    else
      ("unchanged", con)

/-- The row mutation of one iteration of `deactivate_missing_species`. -/
def deactRow (now : Nat) (r : TaxaRow) : TaxaRow :=
  { r with is_active := 0, updated_at := now }

/-- The loop of `deactivate_missing_species`: per id, re-read the row's
sha256, set it inactive, append a "deactivated" change record. -/
def deactivateLoop (con : Db) (run_id : Nat) (now : Nat) : List Nat → Db
  | [] => con
  | tid :: rest =>
    let old_sha := (findRow con.taxa tid).bind (fun r => r.sha256)
    deactivateLoop
      { con with
        taxa := updateRows con.taxa tid (deactRow now)
        changes := con.changes ++ [⟨run_id, tid, "deactivated", old_sha, old_sha, now⟩] }
      run_id now rest

/-- `deactivate_missing_species(con, run_id, active_taxon_ids)`. -/
def deactivate_missing_species (con : Db) (run_id : Nat)
    (active_taxon_ids : List Nat) (now : Nat) : Nat × Db :=
  let rows := con.taxa.filter (fun r => r.is_active == 1 && r.category == some "Species")
  let to_deactivate :=
    (rows.filter (fun r => !(active_taxon_ids.contains r.taxon_id))).map (fun r => r.taxon_id)
  if to_deactivate.isEmpty then (0, con)
  else (to_deactivate.length, deactivateLoop con run_id now to_deactivate)

/-!
SHA-256 (`hashlib.sha256(...).hexdigest()` in `_sha256_bytes`), over byte
lists, with 32-bit words as `Nat` reduced mod `2^32`.
-/

/-- Reduce to a 32-bit word. -/
def w32 (n : Nat) : Nat := n % 4294967296

/-- 32-bit right rotation (argument `x < 2^32`, `0 < n < 32`). -/
def rotr32 (x n : Nat) : Nat := w32 ((x >>> n) ||| (x <<< (32 - n)))

/-- SHA-256 Σ0. -/
def bSigma0 (x : Nat) : Nat := rotr32 x 2 ^^^ rotr32 x 13 ^^^ rotr32 x 22

/-- SHA-256 Σ1. -/
def bSigma1 (x : Nat) : Nat := rotr32 x 6 ^^^ rotr32 x 11 ^^^ rotr32 x 25

/-- SHA-256 σ0. -/
def sSigma0 (x : Nat) : Nat := rotr32 x 7 ^^^ rotr32 x 18 ^^^ (x >>> 3)

/-- SHA-256 σ1. -/
def sSigma1 (x : Nat) : Nat := rotr32 x 17 ^^^ rotr32 x 19 ^^^ (x >>> 10)

/-- SHA-256 round constants (decimal). -/
def sha256K : List Nat :=
  [1116352408, 1899447441, 3049323471, 3921009573, 961987163, 1508970993,
   2453635748, 2870763221, 3624381080, 310598401, 607225278, 1426881987,
   1925078388, 2162078206, 2614888103, 3248222580, 3835390401, 4022224774,
   264347078, 604807628, 770255983, 1249150122, 1555081692, 1996064986,
   2554220882, 2821834349, 2952996808, 3210313671, 3336571891, 3584528711,
   113926993, 338241895, 666307205, 773529912, 1294757372, 1396182291,
   1695183700, 1986661051, 2177026350, 2456956037, 2730485921, 2820302411,
   3259730800, 3345764771, 3516065817, 3600352804, 4094571909, 275423344,
   430227734, 506948616, 659060556, 883997877, 958139571, 1322822218,
   1537002063, 1747873779, 1955562222, 2024104815, 2227730452, 2361852424,
   2428436474, 2756734187, 3204031479, 3329325298]

/-- SHA-256 initial hash state (decimal). -/
def sha256Init : List Nat :=
  [1779033703, 3144134277, 1013904242, 2773480762,
   1359893119, 2600822924, 528734635, 1541459225]

/-- Big-endian 8-byte encoding of a (64-bit) length. -/
def be8 (n : Nat) : List Nat := (List.range 8).map (fun i => (n >>> (8 * (7 - i))) % 256)

/-- SHA-256 padding: append 0x80, zero bytes to 56 mod 64, and the
big-endian bit length. -/
def sha256pad (msg : List Nat) : List Nat :=
  let k := (119 - msg.length % 64) % 64
  msg ++ [0x80] ++ List.replicate k 0 ++ be8 (8 * msg.length)

/-- Group bytes into big-endian 32-bit words. -/
def wordsOfBytes : List Nat → List Nat
  | b0 :: b1 :: b2 :: b3 :: rest =>
    (((b0 * 256 + b1) * 256 + b2) * 256 + b3) :: wordsOfBytes rest
  | _ => []

/-- Extend a message schedule by `fuel` further words. -/
def schedule (w : List Nat) : Nat → List Nat
  | 0 => w
  | k + 1 =>
    schedule
      (w ++ [w32 (sSigma1 (w.getD (w.length - 2) 0) + w.getD (w.length - 7) 0 +
                  sSigma0 (w.getD (w.length - 15) 0) + w.getD (w.length - 16) 0)]) k

/-- One SHA-256 compression round on the 8-word state. -/
def sha256round (st : List Nat) (k w : Nat) : List Nat :=
  match st with
  | [a, b, c, d, e, f, g, h] =>
    let ch := (e &&& f) ^^^ ((e ^^^ 4294967295) &&& g)
    let t1 := w32 (h + bSigma1 e + ch + k + w)
    let maj := (a &&& b) ^^^ (a &&& c) ^^^ (b &&& c)
    let t2 := w32 (bSigma0 a + maj)
    [w32 (t1 + t2), a, b, c, w32 (d + t1), e, f, g]
  | other => other

/-- Compress one 16-word block into the hash state. -/
def sha256block (h : List Nat) (blockWords : List Nat) : List Nat :=
  let w := schedule blockWords 48
  let st := (sha256K.zip w).foldl (fun st kw => sha256round st kw.1 kw.2) h
  (h.zip st).map (fun p => w32 (p.1 + p.2))

/-- Split a word list into chunks of 16 (after padding the length is a
multiple of 16; a ragged tail cannot occur). -/
def chunks16 : List Nat → List (List Nat)
  | a1 :: a2 :: a3 :: a4 :: a5 :: a6 :: a7 :: a8 ::
    a9 :: a10 :: a11 :: a12 :: a13 :: a14 :: a15 :: a16 :: rest =>
    [a1, a2, a3, a4, a5, a6, a7, a8, a9, a10, a11, a12, a13, a14, a15, a16] :: chunks16 rest
  | [] => []
  | l => [l]

/-- SHA-256 of a byte list, as the list of eight 32-bit state words. -/
def sha256words (msg : List Nat) : List Nat :=
  (chunks16 (wordsOfBytes (sha256pad msg))).foldl sha256block sha256Init

/-- A lowercase hex digit. -/
def hexChar (n : Nat) : Char := if n < 10 then Char.ofNat (48 + n) else Char.ofNat (87 + n)

/-- Eight lowercase hex digits of a 32-bit word. -/
def hexWord8 (w : Nat) : List Char := (List.range 8).map (fun i => hexChar ((w >>> (4 * (7 - i))) % 16))

/-- `hashlib.sha256(b).hexdigest()` (`_sha256_bytes`). -/
def sha256hex (msg : List Nat) : String := String.mk ((sha256words msg).flatMap hexWord8)

/-- UTF-8 bytes of a string (all strings involved are ASCII). -/
def strBytes (s : String) : List Nat := s.data.map (fun c => c.toNat)

/-- JSON rendering of an integer list, `json.dumps` style without spaces. -/
def natListJson (l : List Nat) : String :=
  "[" ++ String.intercalate "," (l.map toString) ++ "]"

/-- `_stable_ids_hash(lepidoptera_id, child_ids)`: sort the ids and hash
the canonical JSON of the root id and sorted id list (`sort_keys=True`
puts `"childIds"` before `"root"`). -/
def stable_ids_hash (lepidoptera_id : Nat) (child_ids : List Nat) : String :=
  let ids := child_ids.insertionSort (· ≤ ·)
  sha256hex (strBytes
    ("\x7b\"childIds\":" ++ natListJson ids ++ ",\"root\":" ++ toString lepidoptera_id ++ "\x7d"))

/-- JSON string literal (modelled names need no escaping). -/
def jsonStr (s : String) : String := "\"" ++ s ++ "\""

/-- JSON of an optional value, `null` when absent. -/
def optJson (f : α → String) : Option α → String
  | none => "null"
  | some a => f a

/-- Canonical JSON of a name object restricted to the modelled keys
(`json.dumps(..., sort_keys=True, separators=(",", ":"))`). -/
def nameObjJson (n : NameObj) : String :=
  "\x7b\"category\":" ++ optJson (fun v => "\x7b\"value\":" ++ jsonStr v ++ "\x7d") n.category ++
  ",\"isRecommended\":" ++ optJson (fun b => if b then "true" else "false") n.isRecommended ++
  ",\"name\":" ++ optJson jsonStr n.name ++ "\x7d"

/-- Canonical JSON of a taxon object restricted to the modelled keys,
keys in sorted order as `sort_keys=True` yields. -/
def taxonObjJson (obj : TaxonObj) : String :=
  "\x7b\"category\":" ++ optJson (fun v => "\x7b\"value\":" ++ jsonStr v ++ "\x7d") obj.category ++
  ",\"names\":[" ++ String.intercalate "," (obj.names.map nameObjJson) ++
  "],\"parentId\":" ++ optJson toString obj.parentId ++
  ",\"status\":" ++ optJson (fun v => "\x7b\"value\":" ++ jsonStr v ++ "\x7d") obj.status ++
  ",\"taxonId\":" ++ toString obj.taxonId ++
  ",\"type\":" ++ optJson (fun v => "\x7b\"value\":" ++ jsonStr v ++ "\x7d") obj.type ++ "\x7d"

/-- `taxon_sha256(obj)`: hash of the canonicalized JSON. -/
def taxon_sha256 (obj : TaxonObj) : String := sha256hex (strBytes (taxonObjJson obj))

/-!
The file cache (`create_refresh_list.py`).  The cache directory is a map
from taxon id to the pair of files `{id}.json` (payload) and
`{id}.meta.json` (metadata); sharding by `id // 10000` only chooses the
subdirectory of the unique path of each id, so it is dropped from the
model.  `data = none` models a missing payload file; `meta = none`
models a missing metadata file and `meta = some none` a metadata file
that exists but cannot be parsed (`_read_json` raises on it).
-/

/-- Parsed cache metadata; every field is optional because readers use
`meta.get(key, default)`. -/
structure MetaJson where
  taxon_id : Option Nat
  status : Option Nat
  fetched_at : Option Int
  sha256 : Option String
deriving Repr, DecidableEq

/-- The two on-disk files of one cache entry. -/
structure EntryFiles where
  data : Option TaxonObj
  meta : Option (Option MetaJson)
deriving Repr, DecidableEq

/-- A cache directory state. -/
def CacheFS : Type := Nat → EntryFiles

/-- `_cache_needs_refresh(meta, ttl_seconds)`; `now` replaces `_now()`. -/
def cache_needs_refresh (meta : MetaJson) (ttl_seconds now : Int) : Bool :=
  let fetched_at := meta.fetched_at.getD 0
  if fetched_at ≤ 0 then true
  else if ttl_seconds ≤ 0 then false
  else now - fetched_at ≥ ttl_seconds

/-- `get_taxon_cached(cache_dir, taxon_id, ttl_seconds)`.  `.error ()`
models the uncaught exception `_read_json` raises when both files exist
but the metadata is malformed. -/
def get_taxon_cached (fs : CacheFS) (taxon_id : Nat) (ttl_seconds now : Int) :
    Except Unit (Option TaxonObj) :=
  let e := fs taxon_id
  match e.data, e.meta with
  | some payload, some metaFile =>
    match metaFile with
    | none => .error ()
    | some meta =>
      if ¬cache_needs_refresh meta ttl_seconds now = true ∧ meta.status.getD 0 = 200 then
        .ok (some payload)
      else .ok none
  | _, _ => .ok none

/-- The per-id selection test of the loop in `_taxon_ids_to_fetch`: the
id is appended when either file is missing, when the metadata cannot be
parsed (the `except` arm), or when the entry is stale. -/
def needs_fetch (fs : CacheFS) (ttl_seconds now : Int) (tid : Nat) : Bool :=
  match (fs tid).meta, (fs tid).data with
  | none, _ => true
  | some _, none => true
  | some none, some _ => true
  | some (some meta), some _ => cache_needs_refresh meta ttl_seconds now

/-- `_taxon_ids_to_fetch(cache_dir, all_ids, ttl_seconds)`: the loop
appends exactly the ids passing `needs_fetch`, preserving input order,
i.e. a filter. -/
def taxon_ids_to_fetch (fs : CacheFS) (all_ids : List Nat) (ttl_seconds now : Int) : List Nat :=
  all_ids.filter (needs_fetch fs ttl_seconds now)

/-- `_write_cache(cache_dir, taxon_id, status, payload)`: on 200 with a
payload, write payload and metadata with its hash; otherwise remove the
payload file and write a negative metadata entry. -/
def write_cache (fs : CacheFS) (taxon_id : Nat) (status : Nat) (payload : Option TaxonObj)
    (now : Int) : CacheFS :=
  let newEntry : EntryFiles :=
    match payload with
    | some p =>
      if status = 200 then
        ⟨some p, some (some ⟨some taxon_id, some status, some now, some (taxon_sha256 p)⟩)⟩
      else ⟨none, some (some ⟨some taxon_id, some status, some now, none⟩)⟩
    | none => ⟨none, some (some ⟨some taxon_id, some status, some now, none⟩)⟩
  fun tid => if tid = taxon_id then newEntry else fs tid

/-!
The control skeleton of `main()` in `create_refresh_list.py`: which
phases run, as a function of the fast-exit test and the CLI flags.
-/

/-- The CLI flags of `main` that steer control flow. -/
structure MainArgs where
  force : Bool
  fast_exit : Bool
  only_refresh_cache : Bool
  only_build_lists : Bool
  no_sqlite : Bool
deriving Repr, DecidableEq

/-- Which phases of `main` executed. -/
structure MainOutcome where
  fast_exited : Bool
  did_refresh_cache : Bool
  wrote_list_files : Bool
  did_sqlite : Bool
deriving Repr, DecidableEq

/-- The phase structure of `main()`: the fast-exit return fires before
any mode check; cache refresh runs unless `--only-build-lists`; the
`--only-refresh-cache` return precedes list building; `--no-sqlite`
returns before the SQLite step. -/
def mainFlow (source_unchanged : Bool) (a : MainArgs) : MainOutcome :=
  if source_unchanged && a.fast_exit && !a.force then
    ⟨true, false, false, false⟩
  else
    let did_refresh := !a.only_build_lists
    if a.only_refresh_cache then ⟨false, did_refresh, false, false⟩
    else if a.no_sqlite then ⟨false, did_refresh, true, false⟩
    else ⟨false, did_refresh, true, true⟩

/-!
Concrete states and operation sequences used by witnesses and
counterexamples, and the iteration of `upsert_taxon` over a call list.
-/

/-- One `upsert_taxon` call's arguments. -/
structure UpsertOp where
  run_id : Nat
  obj : TaxonObj
  sha256 : Option String
  make_active : Bool
  now : Nat

/-- Apply a sequence of `upsert_taxon` calls to the store. -/
def runUpserts (con : Db) : List UpsertOp → Db
  | [] => con
  | op :: rest => runUpserts (upsert_taxon con op.run_id op.obj op.sha256 op.make_active op.now).2 rest

/-- An empty cache directory. -/
def fs0 : CacheFS := fun _ => ⟨none, none⟩

/-- A sample accepted species record. -/
def sampleTaxon : TaxonObj :=
  ⟨7, some 2, some "Species", some "Taxonomic", some "Accepted",
   [⟨some "ScientificName", some "Parnassius apollo", some true⟩]⟩

/-- A cache directory where id 3 has a payload file and a metadata file
that exists but cannot be parsed. -/
def fsMalformed : CacheFS :=
  fun tid => if tid = 3 then ⟨some sampleTaxon, some none⟩ else ⟨none, none⟩

/-- A store holding one inactive Species row for id 7. -/
def dbWithInactive : Db :=
  ⟨[⟨7, 0, some "Parnassius apollo", none, some "Species", some "Taxonomic", some "Accepted",
     some 2, 0, some "aa", 10, sampleTaxon⟩], [], 1⟩

/-!
Helper lemmas about row lookup in the `taxa` list.
-/

/-- `findRow` commutes with a row map that preserves `taxon_id`. -/
theorem findRow_map_preserve (taxa : List TaxaRow) (f : TaxaRow → TaxaRow)
    (hf : ∀ r, (f r).taxon_id = r.taxon_id) (tid : Nat) :
    findRow (taxa.map f) tid = (findRow taxa tid).map f := by
  unfold findRow
  rw [List.find?_map]
  have hp : ((fun r : TaxaRow => r.taxon_id == tid) ∘ f)
      = (fun r : TaxaRow => r.taxon_id == tid) := by
    funext r
    simp [Function.comp, hf r]
  rw [hp]

/-- `findRow` after an UPDATE: the looked-up row is rewritten exactly
when its id matches the updated id. -/
theorem findRow_updateRows (taxa : List TaxaRow) (tid0 : Nat) (g : TaxaRow → TaxaRow)
    (hg : ∀ r, (g r).taxon_id = r.taxon_id) (tid : Nat) :
    findRow (updateRows taxa tid0 g) tid
      = (findRow taxa tid).map (fun r => if r.taxon_id == tid0 then g r else r) := by
  unfold updateRows
  exact findRow_map_preserve taxa _
    (fun r => by by_cases hm : r.taxon_id == tid0 <;> simp [hm, hg r]) tid

/-- After any `upsert_taxon` with `make_active = true` and a present
hash, the row of that taxon id has a nonzero active flag and stores that
hash. -/
theorem upsert_makes_row_active_with_sha (con : Db) (run_id : Nat) (obj : TaxonObj)
    (h : String) (now : Nat) :
    ∃ r', findRow (upsert_taxon con run_id obj (some h) true now).2.taxa obj.taxonId = some r' ∧
      r'.is_active ≠ 0 ∧ r'.sha256 = some h := by
  cases hf : findRow con.taxa obj.taxonId with
  | none =>
    refine ⟨⟨obj.taxonId, con.next_local_index, (pick_names_from_taxon_obj obj).1,
      (pick_names_from_taxon_obj obj).2, obj.category, obj.type, obj.status, obj.parentId,
      1, some h, now, obj⟩, ?_, by simp, rfl⟩
    simp only [upsert_taxon, hf]
    unfold findRow at hf ⊢
    rw [List.find?_append, hf, Option.none_or]
    simp [List.find?_cons]
  | some r =>
    simp only [upsert_taxon, hf]
    have hf' : List.find? (fun r : TaxaRow => r.taxon_id == obj.taxonId) con.taxa = some r := hf
    have hbeq : (r.taxon_id == obj.taxonId) = true := by simpa using List.find?_some hf'
    split
    · next hc =>
      exact ⟨r, hf, by omega, hc.2.2.2⟩
    · next hc1 =>
      split
      · next hc2 =>
        have hrw := findRow_updateRows con.taxa obj.taxonId
          (fun r => { refreshFields obj (some h) now r with is_active := 1 })
          (fun r => rfl) obj.taxonId
        rw [hrw, hf]
        refine ⟨_, rfl, ?_, ?_⟩
        · simp [hbeq]
        · simp [hbeq, refreshFields]
      · next hc2 =>
        split
        · next hc3 =>
          simp only [if_true]
          have hrw := findRow_updateRows con.taxa obj.taxonId
            (fun r1 => { refreshFields obj (some h) now r1 with is_active := 1 })
            (fun r1 => rfl) obj.taxonId
          rw [hrw, hf]
          refine ⟨_, rfl, ?_, ?_⟩
          · simp [hbeq]
          · simp [hbeq, refreshFields]
        · next hc3 =>
          refine ⟨r, hf, ?_, ?_⟩
          · intro h0
            exact hc2 ⟨trivial, h0⟩
          · push_neg at hc3
            exact hc3.2

/-- C1 (confirmed): after one `upsert_taxon(run, record, some hash,
make_active=true)`, a second call with the identical record and hash
returns "unchanged" and leaves the store untouched: no row write and no
further ChangeRecord. -/
theorem upsert_second_call_unchanged (con : Db) (run1 run2 : Nat) (obj : TaxonObj)
    (h : String) (now1 now2 : Nat) :
    upsert_taxon (upsert_taxon con run1 obj (some h) true now1).2 run2 obj (some h) true now2
      = ("unchanged", (upsert_taxon con run1 obj (some h) true now1).2) := by
  obtain ⟨r', hfind, hact, hsha⟩ := upsert_makes_row_active_with_sha con run1 obj h now1
  generalize hg : (upsert_taxon con run1 obj (some h) true now1).2 = db1 at hfind ⊢
  simp only [upsert_taxon, hfind]
  split
  · rfl
  · next hc1 =>
    split
    · next hc2 => exact absurd hc2.2 hact
    · next hc2 =>
      split
      · next hc3 =>
        exfalso
        rcases hc3 with hc3 | hc3
        · exact Option.some_ne_none h hc3
        · exact hc3 hsha
      · rfl

/-- C5 (confirmed): for a cache entry with positive fetch timestamp,
TTL = 0 never marks it stale (and an id whose payload and parseable
metadata are on disk is then never re-selected), while TTL > 0 marks it
stale exactly when `now - fetched_at >= TTL`. -/
theorem cache_staleness_rule (meta : MetaJson) (f : Int)
    (hfetch : meta.fetched_at = some f) (hpos : 0 < f) :
    (∀ now : Int, cache_needs_refresh meta 0 now = false) ∧
    (∀ ttl now : Int, 0 < ttl →
      (cache_needs_refresh meta ttl now = true ↔ ttl ≤ now - f)) ∧
    (∀ fs : CacheFS, ∀ tid : Nat, ∀ p : TaxonObj, ∀ ids : List Nat, ∀ now : Int,
      (fs tid).meta = some (some meta) → (fs tid).data = some p →
      tid ∉ taxon_ids_to_fetch fs ids 0 now) := by
  have h0 : ∀ now : Int, cache_needs_refresh meta 0 now = false := by
    intro now
    simp only [cache_needs_refresh, hfetch, Option.getD_some]
    rw [if_neg (by omega), if_pos (by omega)]
  refine ⟨h0, ?_, ?_⟩
  · intro ttl now httl
    simp only [cache_needs_refresh, hfetch, Option.getD_some]
    rw [if_neg (by omega), if_neg (by omega)]
    simp [ge_iff_le]
  · intro fs tid p ids now hm hd hmem
    unfold taxon_ids_to_fetch at hmem
    rw [List.mem_filter] at hmem
    have hsel := hmem.2
    unfold needs_fetch at hsel
    rw [hm, hd] at hsel
    simp only [h0 now] at hsel
    exact Bool.false_ne_true hsel

/-- Witness for `cache_staleness_rule`: entry fetched at epoch 100; with
TTL=0 it is not stale even far in the future; with TTL=60 and 61 seconds
elapsed the staleness test fires. -/
theorem cache_staleness_rule_witness :
    cache_needs_refresh ⟨some 5, some 200, some 100, none⟩ 0 1000000 = false ∧
    (cache_needs_refresh ⟨some 5, some 200, some 100, none⟩ 60 161 = true ↔ (60 : Int) ≤ 161 - 100) := by
  have h := cache_staleness_rule ⟨some 5, some 200, some 100, none⟩ 100 rfl (by norm_num)
  exact ⟨h.1 1000000, h.2.1 60 161 (by norm_num)⟩

/-- C2 (code_bug): after `_write_cache(…, 7, 404, None)` at epoch 100,
the staleness selection over `[7]` at the same instant and TTL=0 still
selects 7 — because the payload file is absent — even though the entry's
metadata is not stale.  The spec's guarantee that a negative cache entry
is not re-selected while the TTL has not elapsed fails on the code. -/
theorem negative_cache_entry_reselected :
    taxon_ids_to_fetch (write_cache fs0 7 404 none 100) [7] 0 100 = [7] ∧
    cache_needs_refresh ⟨some 7, some 404, some 100, none⟩ 0 100 = false := by decide

/-- C6 counterexample: with the source revision unchanged, fast-exit
enabled (the default) and no `--force`, selecting `--only-refresh-cache`
still takes the fast-exit return: the mode's cache refresh is skipped,
so the mode does not bypass the short-circuit. -/
theorem fast_exit_ignores_modes :
    (mainFlow true ⟨false, true, true, false, false⟩).fast_exited = true ∧
    (mainFlow true ⟨false, true, true, false, false⟩).did_refresh_cache = false := by decide

/-- C6 amended (corrected): the cache-refresh-only and list-build-only
modes do not bypass the fast-exit short-circuit; their work is performed
on an unchanged source only when the short-circuit is disarmed by
`--force` or `--no-fast-exit` (the two modes are mutually exclusive per
`parse_args`). -/
theorem modes_run_when_short_circuit_disarmed (u : Bool) (a : MainArgs)
    (hbyp : a.force = true ∨ a.fast_exit = false) :
    (a.only_refresh_cache = true → a.only_build_lists = false →
      (mainFlow u a).did_refresh_cache = true ∧ (mainFlow u a).fast_exited = false) ∧
    (a.only_build_lists = true → a.only_refresh_cache = false →
      (mainFlow u a).wrote_list_files = true ∧ (mainFlow u a).fast_exited = false) := by
  rcases a with ⟨fo, fe, orc, obl, ns⟩
  cases u <;> cases fo <;> cases fe <;> cases orc <;> cases obl <;> cases ns <;>
    first
    | decide
    | (rcases hbyp with hb | hb <;> simp at hb)

/-- Witness for `modes_run_when_short_circuit_disarmed`: with `--force`,
cache-refresh-only mode refreshes the cache even on an unchanged source. -/
theorem modes_run_when_short_circuit_disarmed_witness :
    (mainFlow true ⟨true, true, true, false, false⟩).did_refresh_cache = true ∧
    (mainFlow true ⟨true, true, true, false, false⟩).fast_exited = false :=
  (modes_run_when_short_circuit_disarmed true ⟨true, true, true, false, false⟩
    (Or.inl rfl)).1 rfl rfl

/-- C7 counterexample: inserting a record absent from the store with
`make_active=false` returns "inserted" but the new row is inactive
(`is_active = 0`), contradicting "inserts a row that is active for every
value of make_active". -/
theorem insert_make_active_false_yields_inactive_row :
    (upsert_taxon db_open0 1 sampleTaxon (some "aa") false 10).1 = "inserted" ∧
    ((findRow (upsert_taxon db_open0 1 sampleTaxon (some "aa") false 10).2.taxa 7).map
      (fun r => r.is_active)) = some 0 := by decide

/-- C7 amended (corrected): upsert of a record whose taxon id is absent
inserts a row whose active flag equals `make_active` (active iff
make_active=true), assigns the next sequence index, returns "inserted"
and appends an "inserted" ChangeRecord. -/
theorem upsert_insert_transition (con : Db) (run_id : Nat) (obj : TaxonObj)
    (sha : Option String) (mk : Bool) (now : Nat)
    (habs : findRow con.taxa obj.taxonId = none) :
    upsert_taxon con run_id obj sha mk now =
      ("inserted",
        { taxa := con.taxa ++
            [{ taxon_id := obj.taxonId, local_index := con.next_local_index,
               sci_name := (pick_names_from_taxon_obj obj).1,
               swe_name := (pick_names_from_taxon_obj obj).2,
               category := obj.category, type := obj.type, status := obj.status,
               parent_id := obj.parentId, is_active := if mk then 1 else 0,
               sha256 := sha, updated_at := now, raw_json := obj }],
          changes := con.changes ++ [⟨run_id, obj.taxonId, "inserted", none, sha, now⟩],
          next_local_index := con.next_local_index + 1 }) := by
  simp only [upsert_taxon, habs]

/-- Witness for `upsert_insert_transition` at a concrete fresh store. -/
theorem upsert_insert_transition_witness :
    findRow db_open0.taxa sampleTaxon.taxonId = none ∧
    (upsert_taxon db_open0 1 sampleTaxon (some "bb") true 5).1 = "inserted" := by
  refine ⟨by decide, ?_⟩
  rw [upsert_insert_transition db_open0 1 sampleTaxon (some "bb") true 5 (by decide)]

/-- C9 counterexample: the stable source hash is not a function of the
root id and the set of child ids — `[1, 1]` and `[1]` have the same id
set yet hash differently, since `sorted` keeps duplicates. -/
theorem stable_ids_hash_not_set_function :
    stable_ids_hash 0 [1, 1] ≠ stable_ids_hash 0 [1] := by decide

/-- C9 amended (corrected): the stable source hash is invariant under
reordering of the child-id list (same ids as a multiset), for every root
id. -/
theorem stable_ids_hash_perm_invariant (root : Nat) (ids1 ids2 : List Nat)
    (hperm : ids1.Perm ids2) :
    stable_ids_hash root ids1 = stable_ids_hash root ids2 := by
  unfold stable_ids_hash
  have hsort : ids1.insertionSort (fun a b => a ≤ b) = ids2.insertionSort (fun a b => a ≤ b) :=
    List.eq_of_perm_of_sorted
      ((List.perm_insertionSort _ ids1).trans (hperm.trans (List.perm_insertionSort _ ids2).symm))
      (List.sorted_insertionSort _ ids1) (List.sorted_insertionSort _ ids2)
  rw [hsort]

/-- Witness for `stable_ids_hash_perm_invariant` on a concrete pair. -/
theorem stable_ids_hash_perm_invariant_witness :
    List.Perm [2, 1] [1, 2] ∧ stable_ids_hash 5 [2, 1] = stable_ids_hash 5 [1, 2] :=
  ⟨by decide, stable_ids_hash_perm_invariant 5 [2, 1] [1, 2] (by decide)⟩

/-- C8 counterexample: when an id's payload file exists but its metadata
file is malformed, `get_taxon_cached` raises (the `_read_json` call has
no try/except), so the cache read is not corruption-safe. -/
theorem get_taxon_cached_raises_on_malformed_meta :
    get_taxon_cached fsMalformed 3 0 100 = .error () := rfl

/-- C8 amended (corrected): malformed metadata is never fatal in the
staleness selection, which selects the id for refresh; the cache read
returns none when the payload file is missing, but raises when both
files exist and the metadata is malformed. -/
theorem malformed_meta_selection_not_fatal (fs : CacheFS) (tid : Nat) (ids : List Nat)
    (ttl now : Int) (hmal : (fs tid).meta = some none) :
    (tid ∈ ids → tid ∈ taxon_ids_to_fetch fs ids ttl now) ∧
    (∀ p, (fs tid).data = some p → get_taxon_cached fs tid ttl now = .error ()) ∧
    ((fs tid).data = none → get_taxon_cached fs tid ttl now = .ok none) := by
  refine ⟨?_, ?_, ?_⟩
  · intro hmem
    unfold taxon_ids_to_fetch
    rw [List.mem_filter]
    refine ⟨hmem, ?_⟩
    unfold needs_fetch
    rw [hmal]
    cases hd : (fs tid).data <;> rfl
  · intro p hd
    simp only [get_taxon_cached, hmal, hd]
  · intro hd
    simp only [get_taxon_cached, hmal, hd]

/-- Witness for `malformed_meta_selection_not_fatal` on the concrete
corrupt cache state. -/
theorem malformed_meta_selection_not_fatal_witness :
    3 ∈ taxon_ids_to_fetch fsMalformed [3] 0 0 ∧
    get_taxon_cached fsMalformed 3 0 0 = .error () := by
  have h := malformed_meta_selection_not_fatal fsMalformed 3 [3] 0 0 rfl
  exact ⟨h.1 (by decide), h.2.1 sampleTaxon rfl⟩

/-- C10 (confirmed): for an existing inactive row, upsert with
`make_active=false` and a hash that is absent or differs refreshes the
row's fields, keeps it inactive, returns "updated" and appends an
"updated" ChangeRecord. -/
theorem upsert_inactive_no_activate (con : Db) (run_id : Nat) (obj : TaxonObj)
    (sha : Option String) (now : Nat) (r : TaxaRow)
    (hfind : findRow con.taxa obj.taxonId = some r) (hinact : r.is_active = 0)
    (hdiff : sha = none ∨ r.sha256 ≠ sha) :
    upsert_taxon con run_id obj sha false now =
      ("updated",
        { con with
          taxa := updateRows con.taxa obj.taxonId
            (fun r1 => { refreshFields obj sha now r1 with is_active := 0 })
          changes := con.changes ++ [⟨run_id, obj.taxonId, "updated", r.sha256, sha, now⟩] }) := by
  simp only [upsert_taxon, hfind]
  rw [if_neg (by simp), if_neg (by simp), if_pos hdiff]
  simp [hinact]

/-- Witness for `upsert_inactive_no_activate` on the concrete store with
one inactive row. -/
theorem upsert_inactive_no_activate_witness :
    (upsert_taxon dbWithInactive 2 sampleTaxon (some "bb") false 20).1 = "updated" ∧
    ((findRow (upsert_taxon dbWithInactive 2 sampleTaxon (some "bb") false 20).2.taxa 7).map
      (fun r => r.is_active)) = some 0 := by
  rw [upsert_inactive_no_activate dbWithInactive 2 sampleTaxon (some "bb") 20
    ⟨7, 0, some "Parnassius apollo", none, some "Species", some "Taxonomic", some "Accepted",
     some 2, 0, some "aa", 10, sampleTaxon⟩ (by decide) rfl (Or.inr (by decide))]
  exact ⟨rfl, by decide⟩

/-!
Lemmas for the deactivation pass (C3).
-/

/-- With unique taxon ids, `findRow` at a member row's id returns that row. -/
theorem findRow_of_mem_nodup : ∀ (taxa : List TaxaRow),
    (taxa.map (fun r => r.taxon_id)).Nodup →
    ∀ r ∈ taxa, findRow taxa r.taxon_id = some r := by
  intro taxa
  induction taxa with
  | nil => intro _ r hmem; cases hmem
  | cons a rest ih =>
    intro hnd r hmem
    rw [List.map_cons, List.nodup_cons] at hnd
    rcases List.mem_cons.mp hmem with h | h
    · subst h
      unfold findRow
      simp [List.find?_cons]
    · have hne : (a.taxon_id == r.taxon_id) = false := by
        simp only [beq_eq_false_iff_ne, ne_eq]
        intro he
        exact hnd.1 (he ▸ List.mem_map_of_mem _ h)
      unfold findRow at ih ⊢
      rw [List.find?_cons, hne]
      exact ih hnd.2 r h

/-- The deactivation loop does not touch the allocator. -/
theorem deactivateLoop_next (run_id now : Nat) : ∀ (l : List Nat) (con : Db),
    (deactivateLoop con run_id now l).next_local_index = con.next_local_index := by
  intro l
  induction l with
  | nil => intro con; rfl
  | cons tid rest ih => intro con; simp only [deactivateLoop]; rw [ih]

/-- The taxa list after the deactivation loop: every row whose id is in
the (duplicate-free) id list is deactivated, all others are untouched. -/
theorem deactivateLoop_taxa (run_id now : Nat) : ∀ (l : List Nat), l.Nodup → ∀ (con : Db),
    (deactivateLoop con run_id now l).taxa
      = con.taxa.map (fun r => if l.contains r.taxon_id then deactRow now r else r) := by
  intro l
  induction l with
  | nil =>
    intro _ con
    simp [deactivateLoop]
  | cons tid rest ih =>
    intro hnd con
    obtain ⟨hni, hnd'⟩ := List.nodup_cons.mp hnd
    simp only [deactivateLoop]
    rw [ih hnd']
    unfold updateRows
    rw [List.map_map]
    apply List.map_congr_left
    intro r _
    by_cases hr : (r.taxon_id == tid) = true
    · have hmem : r.taxon_id = tid := by simpa using hr
      have hrest : rest.contains r.taxon_id = false := by
        rw [hmem]
        simpa using hni
      simp [Function.comp, hr, hrest, List.contains_cons, hmem, deactRow]
    · have hne : r.taxon_id ≠ tid := by simpa using hr
      by_cases hrest : r.taxon_id ∈ rest <;>
        simp [Function.comp, hr, hrest, hne, List.contains_cons, deactRow]

/-- The change log after the deactivation loop: one "deactivated" record
per id, in order, whose old and new hashes both re-read the row's stored
hash. -/
theorem deactivateLoop_changes (run_id now : Nat) : ∀ (l : List Nat), l.Nodup → ∀ (con : Db),
    (deactivateLoop con run_id now l).changes
      = con.changes ++ l.map (fun tid =>
          ⟨run_id, tid, "deactivated", (findRow con.taxa tid).bind (fun r => r.sha256),
           (findRow con.taxa tid).bind (fun r => r.sha256), now⟩) := by
  intro l
  induction l with
  | nil =>
    intro _ con
    simp [deactivateLoop]
  | cons tid rest ih =>
    intro hnd con
    obtain ⟨hni, hnd'⟩ := List.nodup_cons.mp hnd
    simp only [deactivateLoop]
    rw [ih hnd']
    have hsha : ∀ tid' : Nat,
        (findRow (updateRows con.taxa tid (deactRow now)) tid').bind (fun r => r.sha256)
          = (findRow con.taxa tid').bind (fun r => r.sha256) := by
      intro tid'
      rw [findRow_updateRows con.taxa tid (deactRow now) (fun r => rfl) tid']
      cases findRow con.taxa tid' with
      | none => rfl
      | some r =>
        by_cases hb : r.taxon_id = tid
        · simp [hb, deactRow]
        · simp [hb]
    simp only [hsha]
    simp [List.map_cons]

/-- C3 (confirmed): over a store with unique taxon ids,
`deactivate_missing_species` deactivates exactly the active Species rows
whose id is not in `active_ids` — each such row becomes inactive with a
"deactivated" ChangeRecord whose old and new hash both equal the stored
hash; the returned count is the number of such rows; rows whose id is in
`active_ids` and rows of other categories are untouched. -/
theorem deactivate_missing_species_complete (con : Db) (run_id : Nat)
    (active_ids : List Nat) (now : Nat)
    (hnd : (con.taxa.map (fun r => r.taxon_id)).Nodup) :
    (deactivate_missing_species con run_id active_ids now).1
        = (con.taxa.filter (fun r => r.is_active == 1 && r.category == some "Species"
            && !(active_ids.contains r.taxon_id))).length ∧
    (∀ r ∈ con.taxa, r.is_active = 1 → r.category = some "Species" →
      r.taxon_id ∉ active_ids →
      findRow (deactivate_missing_species con run_id active_ids now).2.taxa r.taxon_id
          = some (deactRow now r) ∧
      (⟨run_id, r.taxon_id, "deactivated", r.sha256, r.sha256, now⟩ : ChangeRec)
          ∈ (deactivate_missing_species con run_id active_ids now).2.changes) ∧
    (∀ r ∈ con.taxa, r.taxon_id ∈ active_ids ∨ r.category ≠ some "Species" →
      findRow (deactivate_missing_species con run_id active_ids now).2.taxa r.taxon_id
          = some r) := by
  set td := (con.taxa.filter (fun r => r.is_active == 1 && r.category == some "Species")).filter
      (fun r => !(active_ids.contains r.taxon_id)) with htd
  set ids := td.map (fun r => r.taxon_id) with hids
  have hfilters : td = con.taxa.filter (fun r => r.is_active == 1 && r.category == some "Species"
      && !(active_ids.contains r.taxon_id)) := by
    rw [htd, List.filter_filter]
    apply List.filter_congr
    intro r _
    by_cases h1 : (r.is_active == 1 && r.category == some "Species") = true <;>
      by_cases h2 : (!(active_ids.contains r.taxon_id)) = true <;>
        simp_all
  have hnd_ids : ids.Nodup := by
    refine List.Nodup.sublist ?_ hnd
    rw [hids]
    exact List.Sublist.map _ ((List.filter_sublist _).trans (List.filter_sublist _))
  have hdb' : deactivate_missing_species con run_id active_ids now
      = if ids.isEmpty then (0, con) else (ids.length, deactivateLoop con run_id now ids) := rfl
  have hmem_td : ∀ r ∈ con.taxa, r.is_active = 1 → r.category = some "Species" →
      r.taxon_id ∉ active_ids → r ∈ td := by
    intro r hr h1 h2 h3
    rw [htd, List.mem_filter, List.mem_filter]
    refine ⟨⟨hr, ?_⟩, ?_⟩ <;> simp [h1, h2, h3]
  have hnotmem_ids : ∀ r ∈ con.taxa, r.taxon_id ∈ active_ids ∨ r.category ≠ some "Species" →
      r.taxon_id ∉ ids := by
    intro r hr hcase hmem
    rw [hids] at hmem
    obtain ⟨r2, hr2td, he⟩ := List.mem_map.mp hmem
    have hr2 := hr2td
    rw [htd, List.mem_filter, List.mem_filter] at hr2
    obtain ⟨⟨hr2taxa, hq1⟩, hq2⟩ := hr2
    have : r2 = r := List.inj_on_of_nodup_map hnd hr2taxa hr he
    subst this
    rcases hcase with hc | hc
    · simp at hq2
      exact hq2 hc
    · simp at hq1
      exact hc hq1.2
  rw [hdb']
  by_cases hemp : ids.isEmpty = true
  · have hids_nil : ids = [] := List.isEmpty_iff.mp hemp
    have htd_nil : td = [] := by
      rw [hids] at hids_nil
      exact List.map_eq_nil_iff.mp hids_nil
    rw [if_pos hemp]
    refine ⟨?_, ?_, ?_⟩
    · rw [← hfilters, htd_nil]
      rfl
    · intro r hr h1 h2 h3
      have := hmem_td r hr h1 h2 h3
      rw [htd_nil] at this
      cases this
    · intro r hr _
      exact findRow_of_mem_nodup con.taxa hnd r hr
  · rw [if_neg hemp]
    have hpres : ∀ r : TaxaRow,
        ((fun r => if ids.contains r.taxon_id then deactRow now r else r) r).taxon_id
          = r.taxon_id := by
      intro r
      by_cases h : r.taxon_id ∈ ids <;> simp [h, deactRow]
    refine ⟨?_, ?_, ?_⟩
    · rw [← hfilters, hids, List.length_map]
    · intro r hr h1 h2 h3
      have hrtd := hmem_td r hr h1 h2 h3
      have hrid : r.taxon_id ∈ ids := by
        rw [hids]
        exact List.mem_map_of_mem _ hrtd
      constructor
      · rw [deactivateLoop_taxa run_id now ids hnd_ids con,
          findRow_map_preserve con.taxa _ hpres r.taxon_id,
          findRow_of_mem_nodup con.taxa hnd r hr]
        simp [hrid]
      · rw [deactivateLoop_changes run_id now ids hnd_ids con]
        refine List.mem_append_right _ ?_
        rw [List.mem_map]
        refine ⟨r.taxon_id, hrid, ?_⟩
        simp [findRow_of_mem_nodup con.taxa hnd r hr]
    · intro r hr hcase
      rw [deactivateLoop_taxa run_id now ids hnd_ids con,
        findRow_map_preserve con.taxa _ hpres r.taxon_id,
        findRow_of_mem_nodup con.taxa hnd r hr]
      simp [hnotmem_ids r hr hcase]

/-- Witness for `deactivate_missing_species_complete`: a store with one
active Species row (id 7) and unique ids, deactivated when `active_ids`
is empty. -/
theorem deactivate_missing_species_complete_witness :
    ((runUpserts db_open0 [⟨1, sampleTaxon, some "aa", true, 10⟩]).taxa.map
      (fun r => r.taxon_id)).Nodup ∧
    (deactivate_missing_species (runUpserts db_open0 [⟨1, sampleTaxon, some "aa", true, 10⟩])
        1 [] 11).1 = 1 := by
  refine ⟨by decide, ?_⟩
  have h := deactivate_missing_species_complete
    (runUpserts db_open0 [⟨1, sampleTaxon, some "aa", true, 10⟩]) 1 [] 11 (by decide)
  rw [h.1]
  decide

/-!
Lemmas for sequence-index allocation (C4).
-/

/-- Splitting an upsert call sequence. -/
theorem runUpserts_append (l1 l2 : List UpsertOp) : ∀ con : Db,
    runUpserts con (l1 ++ l2) = runUpserts (runUpserts con l1) l2 := by
  induction l1 with
  | nil => intro con; rfl
  | cons op rest ih =>
    intro con
    simp only [List.cons_append, runUpserts]
    exact ih _

/-- A single upsert never changes the `local_index` of an existing row. -/
theorem upsert_preserves_local_index (con : Db) (run_id : Nat) (obj : TaxonObj)
    (sha : Option String) (mk : Bool) (now : Nat) (tid : Nat) (r : TaxaRow)
    (hfind : findRow con.taxa tid = some r) :
    ∃ r', findRow (upsert_taxon con run_id obj sha mk now).2.taxa tid = some r' ∧
      r'.local_index = r.local_index := by
  cases hf : findRow con.taxa obj.taxonId with
  | none =>
    simp only [upsert_taxon, hf]
    refine ⟨r, ?_, rfl⟩
    unfold findRow at hfind ⊢
    rw [List.find?_append, hfind]
    rfl
  | some r0 =>
    simp only [upsert_taxon, hf]
    split
    · exact ⟨r, hfind, rfl⟩
    · next hc1 =>
      split
      · next hc2 =>
        have hrw := findRow_updateRows con.taxa obj.taxonId
          (fun r1 => { refreshFields obj sha now r1 with is_active := 1 })
          (fun r1 => rfl) tid
        rw [hrw, hfind]
        refine ⟨_, rfl, ?_⟩
        by_cases hb : r.taxon_id = obj.taxonId <;> simp [hb, refreshFields]
      · next hc2 =>
        split
        · next hc3 =>
          have hrw := findRow_updateRows con.taxa obj.taxonId
            (fun r1 => { refreshFields obj sha now r1 with
                         is_active := if mk then 1 else r0.is_active })
            (fun r1 => rfl) tid
          rw [hrw, hfind]
          refine ⟨_, rfl, ?_⟩
          by_cases hb : r.taxon_id = obj.taxonId <;> simp [hb, refreshFields]
        · next hc3 => exact ⟨r, hfind, rfl⟩

/-- An UPDATE that preserves each row's `local_index` preserves the
index column of the table. -/
theorem local_index_map_updateRows (taxa : List TaxaRow) (tid : Nat) (g : TaxaRow → TaxaRow)
    (hg : ∀ r, (g r).local_index = r.local_index) :
    (updateRows taxa tid g).map (fun r => r.local_index) = taxa.map (fun r => r.local_index) := by
  unfold updateRows
  rw [List.map_map]
  apply List.map_congr_left
  intro r _
  by_cases hb : r.taxon_id = tid <;> simp [Function.comp, hb, hg r]

/-- Bound and sortedness of local indices transfer along equal index
columns. -/
theorem inv_of_same_indices (l1 l2 : List TaxaRow) (n : Nat)
    (hmap : l1.map (fun r => r.local_index) = l2.map (fun r => r.local_index))
    (hbound : ∀ r ∈ l2, r.local_index < n)
    (hsorted : List.Pairwise (· < ·) (l2.map (fun r => r.local_index))) :
    (∀ r ∈ l1, r.local_index < n) ∧
      List.Pairwise (· < ·) (l1.map (fun r => r.local_index)) := by
  constructor
  · intro r hr
    have hx : r.local_index ∈ l2.map (fun r => r.local_index) := by
      rw [← hmap]
      exact List.mem_map_of_mem _ hr
    obtain ⟨r2, hr2, he⟩ := List.mem_map.mp hx
    exact he ▸ hbound r2 hr2
  · rw [hmap]
    exact hsorted

/-- One upsert preserves the allocator invariant: all indices below the
counter, and the index column strictly increasing in insertion order. -/
theorem upsert_preserves_index_inv (con : Db) (run_id : Nat) (obj : TaxonObj)
    (sha : Option String) (mk : Bool) (now : Nat)
    (hbound : ∀ r ∈ con.taxa, r.local_index < con.next_local_index)
    (hsorted : List.Pairwise (· < ·) (con.taxa.map (fun r => r.local_index))) :
    (∀ r ∈ (upsert_taxon con run_id obj sha mk now).2.taxa,
        r.local_index < (upsert_taxon con run_id obj sha mk now).2.next_local_index) ∧
    List.Pairwise (· < ·)
      ((upsert_taxon con run_id obj sha mk now).2.taxa.map (fun r => r.local_index)) := by
  cases hf : findRow con.taxa obj.taxonId with
  | none =>
    simp only [upsert_taxon, hf]
    constructor
    · intro r hr
      rcases List.mem_append.mp hr with h | h
      · exact Nat.lt_succ_of_lt (hbound r h)
      · rw [List.mem_singleton] at h
        subst h
        exact Nat.lt_succ_self _
    · rw [List.map_append, List.pairwise_append]
      refine ⟨hsorted, List.pairwise_singleton _ _, ?_⟩
      intro x hx y hy
      simp only [List.map_cons, List.map_nil, List.mem_singleton] at hy
      subst hy
      obtain ⟨r2, hr2, he⟩ := List.mem_map.mp hx
      exact he ▸ hbound r2 hr2
  | some r0 =>
    simp only [upsert_taxon, hf]
    split
    · exact ⟨hbound, hsorted⟩
    · next hc1 =>
      split
      · next hc2 =>
        refine inv_of_same_indices _ con.taxa _
          (local_index_map_updateRows con.taxa obj.taxonId _ ?_) hbound hsorted
        intro r1
        simp [refreshFields]
      · next hc2 =>
        split
        · next hc3 =>
          refine inv_of_same_indices _ con.taxa _
            (local_index_map_updateRows con.taxa obj.taxonId _ ?_) hbound hsorted
          intro r1
          simp [refreshFields]
        · next hc3 => exact ⟨hbound, hsorted⟩

/-- The allocator invariant holds after any upsert sequence. -/
theorem runUpserts_preserves_inv (ops : List UpsertOp) : ∀ con : Db,
    (∀ r ∈ con.taxa, r.local_index < con.next_local_index) →
    List.Pairwise (· < ·) (con.taxa.map (fun r => r.local_index)) →
    (∀ r ∈ (runUpserts con ops).taxa,
        r.local_index < (runUpserts con ops).next_local_index) ∧
    List.Pairwise (· < ·) ((runUpserts con ops).taxa.map (fun r => r.local_index)) := by
  induction ops with
  | nil => intro con hb hs; exact ⟨hb, hs⟩
  | cons op rest ih =>
    intro con hb hs
    have h1 := upsert_preserves_index_inv con op.run_id op.obj op.sha256 op.make_active op.now hb hs
    exact ih _ h1.1 h1.2

/-- Upsert sequences never change an existing row's `local_index`. -/
theorem runUpserts_preserves_local_index (ops : List UpsertOp) :
    ∀ (con : Db) (tid : Nat) (r : TaxaRow),
    findRow con.taxa tid = some r →
    ∃ r', findRow (runUpserts con ops).taxa tid = some r' ∧
      r'.local_index = r.local_index := by
  induction ops with
  | nil => intro con tid r hf; exact ⟨r, hf, rfl⟩
  | cons op rest ih =>
    intro con tid r hf
    obtain ⟨r1, h1, he1⟩ := upsert_preserves_local_index con op.run_id op.obj op.sha256
      op.make_active op.now tid r hf
    obtain ⟨r2, h2, he2⟩ := ih _ tid r1 h1
    exact ⟨r2, h2, he2.trans he1⟩

/-- C4 (confirmed): over every upsert sequence from a fresh store, the
assigned sequence indices are pairwise distinct and strictly increasing
in insertion order, and a row's index, once assigned, survives any
further upsert sequence unchanged. -/
theorem local_index_unique_monotone (ops : List UpsertOp) :
    List.Pairwise (· < ·) ((runUpserts db_open0 ops).taxa.map (fun r => r.local_index)) ∧
    (∀ (more : List UpsertOp) (tid : Nat) (r : TaxaRow),
      findRow (runUpserts db_open0 ops).taxa tid = some r →
      ∃ r', findRow (runUpserts db_open0 (ops ++ more)).taxa tid = some r' ∧
        r'.local_index = r.local_index) := by
  constructor
  · exact (runUpserts_preserves_inv ops db_open0 (by simp [db_open0]) (by simp [db_open0])).2
  · intro more tid r hfind
    rw [runUpserts_append ops more db_open0]
    exact runUpserts_preserves_local_index more _ tid r hfind

/-- Witness for `local_index_unique_monotone`: after inserting taxon 7
(index 0), a further upsert of another taxon leaves 7's index at 0. -/
theorem local_index_unique_monotone_witness :
    (findRow (runUpserts db_open0 [⟨1, sampleTaxon, some "aa", true, 10⟩]).taxa 7
        = some ⟨7, 0, some "Parnassius apollo", none, some "Species", some "Taxonomic",
            some "Accepted", some 2, 1, some "aa", 10, sampleTaxon⟩) ∧
    (∃ r', findRow (runUpserts db_open0 ([⟨1, sampleTaxon, some "aa", true, 10⟩] ++
          [⟨2, ⟨8, none, none, none, none, []⟩, some "bb", true, 11⟩])).taxa 7
        = some r' ∧ r'.local_index = 0) := by
  refine ⟨by decide, ?_⟩
  exact (local_index_unique_monotone [⟨1, sampleTaxon, some "aa", true, 10⟩]).2
    [⟨2, ⟨8, none, none, none, none, []⟩, some "bb", true, 11⟩] 7
    ⟨7, 0, some "Parnassius apollo", none, some "Species", some "Taxonomic",
     some "Accepted", some 2, 1, some "aa", 10, sampleTaxon⟩ (by decide)
